import Mathlib

/- Shallow embedding of the x-feed RSS bots (src/__main__.py, src/discord.py,
src/slack.py, src/local.py).  Python strings are modelled as List Char, Python
exceptions as Except values, and the random choice of random.choice as an
arbitrary index k taken modulo the list length.  The four variants share the
history store, the feed selector (two delimiter variants), the article fetcher
and the summarizer response handling; each is embedded once below. -/

/-- Errors raised by the Python code paths that the claims mention. -/
inductive PyError where
  | indexError
  | noEntries
  | noNewArticles
  | upstreamApiError
  | postError
deriving DecidableEq

/-- A parsed feed entry as the bots read it: entry.title, entry.link,
and the optional description and content fields.  The code only ever reads
the first content item through entry.get with a default, so a present
content key is modelled by its first item value. -/
structure Entry where
  title : List Char
  link : List Char
  description : Option (List Char)
  contentValue : Option (List Char)
deriving DecidableEq

/-- The article dict built by get_latest_article in every variant. -/
structure Article where
  title : List Char
  link : List Char
  description : List Char
  content : List Char
deriving DecidableEq

/-- One element of the posted-articles history: the dict with url and date
appended by save_history. -/
structure HistRecord where
  url : List Char
  date : List Char
deriving DecidableEq

/-- Python str.strip with no argument: whitespace removed from both ends. -/
def pyStrip (l : List Char) : List Char :=
  ((l.dropWhile Char.isWhitespace).reverse.dropWhile Char.isWhitespace).reverse

/-- Python str.rstrip with no argument: trailing whitespace removed. -/
def pyRstrip (l : List Char) : List Char :=
  (l.reverse.dropWhile Char.isWhitespace).reverse

/-- The filter condition of the feed-url loops in all variants:
the Python test  line and not line.startswith('#'). -/
def keepLine (l : List Char) : Bool :=
  !l.isEmpty && !(List.isPrefixOf ['#'] l)

/-- The url extraction of src/__main__.py and src/local.py:
line.split('!')[0].strip(), i.e. the prefix before the first '!', stripped. -/
def extractBang (l : List Char) : List Char :=
  pyStrip (l.takeWhile (fun c => c != '!'))

/-- The url extraction of src/discord.py and src/slack.py:
line.split()[0].strip().  Python split() with no argument drops empty tokens,
so on a line made only of whitespace the [0] index raises IndexError. -/
def extractWs (l : List Char) : Except PyError (List Char) :=
  match l.dropWhile Char.isWhitespace with
  | [] => Except.error PyError.indexError
  | c :: t => Except.ok (pyStrip ((c :: t).takeWhile (fun a => !a.isWhitespace)))

/-- The valid_feeds list built by get_random_feed_url in src/__main__.py
(the '!'-split variant): kept lines mapped through the extraction. -/
def validFeedsBang (lines : List (List Char)) : List (List Char) :=
  (lines.filter keepLine).map extractBang

/-- The valid_feeds list built by get_random_feed_url in src/discord.py and
src/slack.py (the whitespace-split variant); the loop raises at the first
kept line whose extraction fails. -/
def validFeedsWs : List (List Char) → Except PyError (List (List Char))
  | [] => Except.ok []
  | l :: ls =>
    if keepLine l then
      (extractWs l).bind fun u => (validFeedsWs ls).bind fun vf => Except.ok (u :: vf)
    else validFeedsWs ls

/-- get_random_feed_url of src/__main__.py and src/local.py.
random.choice raises IndexError on an empty sequence; otherwise it returns
the element at some index, modelled by k modulo the length. -/
def getRandomFeedUrlBang (lines : List (List Char)) (k : Nat) : Except PyError (List Char) :=
  let vf := validFeedsBang lines
  if vf.isEmpty then Except.error PyError.indexError
  else Except.ok (vf.getD (k % vf.length) [])

/-- get_random_feed_url of src/discord.py and src/slack.py (identical code in
both files): build valid_feeds with the whitespace extraction, then choose. -/
def getRandomFeedUrlWs (lines : List (List Char)) (k : Nat) : Except PyError (List Char) :=
  (validFeedsWs lines).bind fun vf =>
    if vf.isEmpty then Except.error PyError.indexError
    else Except.ok (vf.getD (k % vf.length) [])

/-- The bot state relevant to the history store: the in-memory
posted_articles list and the contents of the history file (none when the
file does not exist). -/
structure StoreState where
  posted : List HistRecord
  file : Option (List HistRecord)
deriving DecidableEq

/-- load_history: json.load of the file when it exists, else the empty list. -/
def load_history (file : Option (List HistRecord)) : List HistRecord :=
  file.getD []

/-- save_history(article_url): append the url-with-date record to the
in-memory list and rewrite the whole file with it. -/
def save_history (s : StoreState) (u now : List Char) : StoreState :=
  let p := s.posted ++ [⟨u, now⟩]
  ⟨p, some p⟩

/-- Number of history records whose url field equals u. -/
def countUrl (u : List Char) (h : List HistRecord) : Nat :=
  (h.filter (fun p => p.url == u)).length

/-- The membership test of get_latest_article:
any(post['url'] == entry.link for post in self.posted_articles). -/
def seenIn (posted : List HistRecord) (link : List Char) : Bool :=
  posted.any (fun p => p.url == link)

/-- The article dict get_latest_article builds from an entry, with the
defaults of entry.get applied. -/
def mkArticle (e : Entry) : Article :=
  ⟨e.title, e.link, e.description.getD [], e.contentValue.getD []⟩

/-- get_latest_article (identical logic in all four variants): error when the
feed has no entries, otherwise the first entry in source order whose link is
not in the history, otherwise the no-new-articles error. -/
def getLatestArticle (entries : List Entry) (posted : List HistRecord) : Except PyError Article :=
  if entries.isEmpty then Except.error PyError.noEntries
  else
    match entries.find? (fun e => !seenIn posted e.link) with
    | some e => Except.ok (mkArticle e)
    | none => Except.error PyError.noNewArticles

/-- combined_content of generate_summary in src/discord.py and src/slack.py:
(article['description'] + ' ' + article['content']).strip(). -/
def combinedContent (a : Article) : List Char :=
  pyStrip (a.description ++ ' ' :: a.content)

/-- truncated_content of generate_summary:
combined_content[:500] + ('...' if len(combined_content) > 500 else ''). -/
def truncatedContent (a : Article) : List Char :=
  (combinedContent a).take 500 ++
    (if 500 < (combinedContent a).length then ['.', '.', '.'] else [])

/-- The user-message content sent by generate_summary:
the f-string Title: ...  newline  Content: truncated_content. -/
def summaryUserContent (a : Article) : List Char :=
  "Title: ".data ++ a.title ++ '\n' :: ("Content: ".data ++ truncatedContent a)

/-- The tail of generate_summary applied to the endpoint response: raise on a
non-200 status, otherwise return choices[0].message.content stripped. -/
def generateSummaryResult (status : Nat) (content : List Char) : Except PyError (List Char) :=
  if status ≠ 200 then Except.error PyError.upstreamApiError
  else Except.ok (pyStrip content)

/-- Python substring membership: needle in hay. -/
def pyInStr : List Char → List Char → Bool
  | needle, [] => needle.isEmpty
  | needle, c :: rest => needle.isPrefixOf (c :: rest) || pyInStr needle rest

/-- The placeholder token looked for by src/local.py. -/
def urlPlaceholder : List Char := ['[', 'U', 'R', 'L', ']']

/-- Python str.replace(old, new) for a non-empty old: left-to-right,
non-overlapping replacement of every occurrence.  (The code only calls this
with the non-empty placeholder as old.) -/
def pyReplace (old new : List Char) : List Char → List Char
  | [] => []
  | c :: rest =>
    if h : old.isPrefixOf (c :: rest) ∧ old ≠ [] then
      new ++ pyReplace old new ((c :: rest).drop old.length)
    else
      c :: pyReplace old new rest
termination_by l => l.length
decreasing_by
  · simp only [List.length_drop, List.length_cons]
    have hpos : 0 < old.length := List.length_pos.mpr h.2
    omega
  · simp

/-- The url-enforcement block of main in src/local.py: keep the tweet when it
already contains the link, else substitute the placeholder, else append the
link after the right-stripped tweet. -/
def ensureUrlInTweet (tweet link : List Char) : List Char :=
  if pyInStr link tweet then tweet
  else if pyInStr urlPlaceholder tweet then pyReplace urlPlaceholder link tweet
  else pyRstrip tweet ++ ' ' :: link

/-- The non-deterministic inputs of one iteration of the continuous loop in
src/discord.py: the feed list, the random index, the parsed entries, the
generation endpoint response and the webhook outcome. -/
structure CycleEnv where
  feedLines : List (List Char)
  choiceIdx : Nat
  entries : List Entry
  genStatus : Nat
  genContent : List Char
  postOk : Bool
  now : List Char
deriving DecidableEq

/-- post_to_discord outcome: webhook.execute() falsy means an exception. -/
def postToDiscordResult (ok : Bool) : Except PyError Unit :=
  if ok then Except.ok () else Except.error PyError.postError

/-- The body of the try block inside the while loop of main in
src/discord.py: select feed, fetch article, summarize, post, save history. -/
def runCycleDiscord (env : CycleEnv) (s : StoreState) : Except PyError StoreState :=
  (getRandomFeedUrlWs env.feedLines env.choiceIdx).bind fun _feedUrl =>
    (getLatestArticle env.entries s.posted).bind fun a =>
      (generateSummaryResult env.genStatus env.genContent).bind fun _summary =>
        (postToDiscordResult env.postOk).bind fun _u =>
          Except.ok (save_history s a.link env.now)

/-- One guarded iteration of the continuous loop: the except clause catches
any cycle error, logs it and keeps the previous state, so the loop always
proceeds to the sleep and the next cycle. -/
def loopIterDiscord (env : CycleEnv) (s : StoreState) : StoreState :=
  match runCycleDiscord env s with
  | Except.ok s2 => s2
  | Except.error _ => s

/-- First head character usable by both selector variants: not whitespace and
not the bang delimiter. -/
def goodHead (l : List Char) : Bool :=
  match l with
  | [] => false
  | c :: _ => !c.isWhitespace && c != '!'

/-- Sample entry already present in the sample history. -/
def entryA : Entry := ⟨['t', 'A'], ['A'], none, none⟩

/-- Sample entry not present in the sample history. -/
def entryB : Entry := ⟨['t', 'B'], ['B'], some ['d', 'B'], none⟩

/-- Sample history record matching entryA. -/
def recA : HistRecord := ⟨['A'], ['d', '1']⟩

/-- Sample loop environment whose generation endpoint answers status 500. -/
def sampleEnv : CycleEnv := ⟨[['a']], 0, [entryA], 500, ['x'], true, ['t', 's']⟩

/-- Sample store state with an empty history and no history file. -/
def sampleStore : StoreState := ⟨[], none⟩

/-- Sample article with a short combined content. -/
def sampleArticle : Article := ⟨['T'], ['L'], ['d'], ['c']⟩

/-- Sample generated tweet containing the placeholder but not the link. -/
def sampleTweet : List Char := "Go [URL] now".data

/-- Sample article link. -/
def sampleLink : List Char := "http://a".data

/-- An in-range getD is a member of the list. -/
theorem getD_mem_of_lt {α : Type} (l : List α) (n : Nat) (d : α) (h : n < l.length) :
    l.getD n d ∈ l := by
  induction l generalizing n with
  | nil => simp at h
  | cons a t ih =>
    cases n with
    | zero => simp [List.getD_cons_zero]
    | succ m =>
      rw [List.getD_cons_succ]
      exact List.mem_cons_of_mem a (ih m (by simpa using h))

/-- find? returns the first element satisfying the predicate. -/
theorem find?_append_first {α : Type} (p : α → Bool) (pre : List α) (e : α) (post : List α)
    (hpre : ∀ x ∈ pre, p x = false) (he : p e = true) :
    List.find? p (pre ++ e :: post) = some e := by
  induction pre with
  | nil => exact List.find?_cons_of_pos _ he
  | cons a t ih =>
    have ha : ¬ p a := by simp [hpre a (List.mem_cons_self a t)]
    rw [List.cons_append, List.find?_cons_of_neg _ ha]
    exact ih fun x hx => hpre x (List.mem_cons_of_mem a hx)

/-- find? succeeds when a member satisfies the predicate. -/
theorem find?_some_of_mem {α : Type} (p : α → Bool) (l : List α) (x : α)
    (hx : x ∈ l) (hp : p x = true) :
    ∃ y, List.find? p l = some y ∧ p y = true := by
  induction l with
  | nil => cases hx
  | cons a t ih =>
    by_cases ha : p a = true
    · exact ⟨a, List.find?_cons_of_pos _ ha, ha⟩
    · rcases List.mem_cons.mp hx with h1 | h2
      · exact absurd (h1 ▸ hp) ha
      · rcases ih h2 with ⟨y, hy, hpy⟩
        exact ⟨y, by rw [List.find?_cons_of_neg _ ha]; exact hy, hpy⟩

/-- dropWhile keeps the final element when the predicate fails on it. -/
theorem dropWhile_append_last {α : Type} (p : α → Bool) (c : α) (hc : p c = false)
    (y : List α) : ∃ d, List.dropWhile p (y ++ [c]) = d ++ [c] := by
  induction y with
  | nil => exact ⟨[], by simp [List.dropWhile, hc]⟩
  | cons a t ih =>
    by_cases hpa : p a = true
    · rcases ih with ⟨d, hd⟩
      exact ⟨d, by rw [List.cons_append, List.dropWhile_cons, if_pos hpa]; exact hd⟩
    · exact ⟨a :: t, by rw [List.cons_append, List.dropWhile_cons, if_neg hpa]⟩

/-- Stripping a list headed by a non-whitespace character keeps that head. -/
theorem pyStrip_cons_head (c : Char) (x : List Char) (hc : c.isWhitespace = false) :
    ∃ w, pyStrip (c :: x) = c :: w := by
  unfold pyStrip
  rw [List.dropWhile_cons, if_neg (by simp [hc])]
  rcases dropWhile_append_last Char.isWhitespace c hc x.reverse with ⟨d, hd⟩
  refine ⟨d.reverse, ?_⟩
  rw [List.reverse_cons, hd, List.reverse_append]
  simp

/-- C5 helper-free statement is below; store theorems first. -/
theorem load_save_posted (s : StoreState) (u now : List Char) :
    load_history ((save_history s u now).file) = s.posted ++ [⟨u, now⟩] := by
  simp [save_history, load_history]

/-- C5: the store deduplicates nothing: appending the same url twice and
reloading yields the starting records followed by two records for that url,
so the count of records with that url grows by exactly two. -/
theorem c5_store_no_dedup (s : StoreState) (u t1 t2 : List Char) :
    load_history ((save_history (save_history s u t1) u t2).file) =
      s.posted ++ [⟨u, t1⟩, ⟨u, t2⟩] ∧
    countUrl u (load_history ((save_history (save_history s u t1) u t2).file)) =
      countUrl u s.posted + 2 := by
  constructor
  · simp [save_history, load_history]
  · simp [save_history, load_history, countUrl, List.filter_append]

/-- C6: round-trip: saving a record and reloading from the file reproduces
the full appended sequence, whose last record carries the same url and the
same timestamp that were written. -/
theorem c6_store_roundtrip (s : StoreState) (u t : List Char) :
    load_history ((save_history s u t).file) = s.posted ++ [⟨u, t⟩] ∧
    (load_history ((save_history s u t).file)).getLast? = some ⟨u, t⟩ := by
  refine ⟨load_save_posted s u t, ?_⟩
  rw [load_save_posted s u t]
  exact List.getLast?_concat s.posted

/-- Claim C1: the fetcher contract: on an empty entry sequence
get_latest_article raises the no-entries condition; otherwise it returns the
first entry in source order whose link is absent from the history, as an
article built from that entry; and when every entry is already in the
history it raises the no-new-articles condition. -/
theorem c1_fetcher_contract (entries : List Entry) (posted : List HistRecord) :
    (entries = [] → getLatestArticle entries posted = Except.error PyError.noEntries) ∧
    (∀ pre e post, entries = pre ++ e :: post →
      (∀ x ∈ pre, seenIn posted x.link = true) → seenIn posted e.link = false →
      getLatestArticle entries posted = Except.ok (mkArticle e)) ∧
    (entries ≠ [] → (∀ x ∈ entries, seenIn posted x.link = true) →
      getLatestArticle entries posted = Except.error PyError.noNewArticles) := by
  refine ⟨?_, ?_, ?_⟩
  · intro h
    subst h
    simp [getLatestArticle]
  · intro pre e post hsplit hpre he
    subst hsplit
    have hne : (pre ++ e :: post).isEmpty = false := by simp
    have hfind : List.find? (fun x => !seenIn posted x.link) (pre ++ e :: post) = some e :=
      find?_append_first _ pre e post (fun x hx => by simp [hpre x hx]) (by simp [he])
    simp [getLatestArticle, hne, hfind]
  · intro hne hall
    have hfind : List.find? (fun x => !seenIn posted x.link) entries = none :=
      List.find?_eq_none.mpr fun x hx => by simp [hall x hx]
    have hne2 : entries.isEmpty = false := by
      cases entries with
      | nil => exact absurd rfl hne
      | cons a t => simp
    simp [getLatestArticle, hne2, hfind]

/-- Witness for C1 at a concrete feed: history contains url A, the feed has
entries with links A then B, and the fetcher returns the B article. -/
theorem c1_witness :
    getLatestArticle [entryA, entryB] [recA] = Except.ok (mkArticle entryB) :=
  (c1_fetcher_contract [entryA, entryB] [recA]).2.1 [entryA] entryB [] rfl
    (by decide) (by decide)

/-- Claim C2: deduplication invariant: any article the fetcher returns has a
link that no history record carries, and an unseen entry also suffices for
an article to be returned, so an article is eligible exactly when its url is
absent from the history. -/
theorem c2_fetcher_dedup (entries : List Entry) (posted : List HistRecord) :
    (∀ a, getLatestArticle entries posted = Except.ok a → seenIn posted a.link = false) ∧
    ((∃ e ∈ entries, seenIn posted e.link = false) →
      ∃ a, getLatestArticle entries posted = Except.ok a ∧ seenIn posted a.link = false) := by
  constructor
  · intro a ha
    unfold getLatestArticle at ha
    by_cases hne : entries.isEmpty = true
    · rw [if_pos hne] at ha
      cases ha
    · rw [if_neg hne] at ha
      cases hfind : List.find? (fun e => !seenIn posted e.link) entries with
      | none => rw [hfind] at ha; cases ha
      | some e =>
        rw [hfind] at ha
        have hp := List.find?_some hfind
        have : a = mkArticle e := by cases ha; rfl
        subst this
        simpa [mkArticle] using hp
  · rintro ⟨e, he, hunseen⟩
    rcases find?_some_of_mem (fun x => !seenIn posted x.link) entries e he
        (by simp [hunseen]) with ⟨y, hy, hpy⟩
    have hne : entries.isEmpty = false := by
      cases entries with
      | nil => cases he
      | cons a t => simp
    refine ⟨mkArticle y, ?_, ?_⟩
    · simp [getLatestArticle, hne, hy]
    · simpa [mkArticle] using hpy

/-- Witness for C2: with history url A and entries linking A and B, some
article is returned and its link is not in the history. -/
theorem c2_witness :
    ∃ a, getLatestArticle [entryA, entryB] [recA] = Except.ok a ∧
      seenIn [recA] a.link = false :=
  (c2_fetcher_dedup [entryA, entryB] [recA]).2 ⟨entryB, by decide⟩

/-- Claim C4: when every line of the feed list is empty or starts with the
comment marker, the filtered set is empty and get_random_feed_url of the
'!'-split variant raises the IndexError of random.choice on an empty
sequence rather than returning any value. -/
theorem c4_selector_empty_error (lines : List (List Char)) (k : Nat)
    (h : ∀ l ∈ lines, (l.isEmpty || List.isPrefixOf ['#'] l) = true) :
    getRandomFeedUrlBang lines k = Except.error PyError.indexError := by
  have hf : lines.filter keepLine = [] := by
    apply List.filter_eq_nil_iff.mpr
    intro l hl
    have hor := h l hl
    simp only [Bool.or_eq_true] at hor
    simp only [keepLine, Bool.and_eq_true, Bool.not_eq_true', Bool.not_eq_true]
    intro hcontra
    rcases hor with h1 | h1
    · exact absurd h1 (by simp [hcontra.1])
    · exact absurd h1 (by simp [hcontra.2])
  simp [getRandomFeedUrlBang, validFeedsBang, hf]

/-- Witness for C4: a comment line and an empty line produce the error. -/
theorem c4_witness :
    getRandomFeedUrlBang [['#', 'a'], []] 0 = Except.error PyError.indexError :=
  c4_selector_empty_error [['#', 'a'], []] 0 (by decide)

/-- The whitespace extraction only ever raises the IndexError. -/
theorem extractWs_error_shape (l : List Char) (e : PyError)
    (h : extractWs l = Except.error e) : e = PyError.indexError := by
  unfold extractWs at h
  cases hdw : l.dropWhile Char.isWhitespace with
  | nil => rw [hdw] at h; cases h; rfl
  | cons c t => rw [hdw] at h; cases h

/-- A non-empty all-whitespace line passes the keep filter. -/
theorem keepLine_of_all_ws (w : List Char) (hne : w ≠ [])
    (hall : w.all Char.isWhitespace = true) : keepLine w = true := by
  cases w with
  | nil => exact absurd rfl hne
  | cons c t =>
    have hcw : c.isWhitespace = true := by
      have := List.all_eq_true.mp hall c (List.mem_cons_self c t)
      simpa using this
    have hhash : ('#' == c) = false := by
      by_cases hc : c = '#'
      · subst hc; cases hcw
      · simp [Ne.symm hc]
    simp [keepLine, List.isPrefixOf, hhash]

/-- The whitespace extraction raises on a non-empty all-whitespace line. -/
theorem extractWs_all_ws (w : List Char) (hall : w.all Char.isWhitespace = true) :
    extractWs w = Except.error PyError.indexError := by
  have hdw : w.dropWhile Char.isWhitespace = [] :=
    List.dropWhile_eq_nil_iff.mpr (List.all_eq_true.mp hall)
  unfold extractWs
  rw [hdw]

/-- Building the whitespace-variant valid_feeds list raises the IndexError
whenever some line is non-empty but made only of whitespace. -/
theorem validFeedsWs_error (lines : List (List Char))
    (h : ∃ w ∈ lines, w ≠ [] ∧ w.all Char.isWhitespace = true) :
    validFeedsWs lines = Except.error PyError.indexError := by
  induction lines with
  | nil => rcases h with ⟨w, hw, _⟩; cases hw
  | cons l ls ih =>
    rcases h with ⟨w, hw, hne, hall⟩
    rcases List.mem_cons.mp hw with rfl | hmem
    · have hkeep : keepLine w = true := keepLine_of_all_ws w hne hall
      have hex : extractWs w = Except.error PyError.indexError := extractWs_all_ws w hall
      simp [validFeedsWs, hkeep, hex, Except.bind]
    · have hrest := ih ⟨w, hmem, hne, hall⟩
      by_cases hkeep : keepLine l = true
      · cases hex : extractWs l with
        | error e =>
          have he := extractWs_error_shape l e hex
          subst he
          simp [validFeedsWs, hkeep, hex, Except.bind]
        | ok u => simp [validFeedsWs, hkeep, hex, hrest, Except.bind]
      · simp [validFeedsWs, hkeep, hrest]

/-- Claim C10: in the whitespace-split variants (discord, slack), a feed list
holding a line of only whitespace characters makes get_random_feed_url raise
an unhandled IndexError: the line is non-empty and does not start with the
comment marker, yet split() on it yields no token to index. -/
theorem c10_ws_indexerror (lines : List (List Char)) (k : Nat)
    (h : ∃ w ∈ lines, w ≠ [] ∧ w.all Char.isWhitespace = true) :
    getRandomFeedUrlWs lines k = Except.error PyError.indexError := by
  have hv := validFeedsWs_error lines h
  simp [getRandomFeedUrlWs, hv, Except.bind]

/-- Witness for C10: a single line made of one space raises the IndexError. -/
theorem c10_witness :
    getRandomFeedUrlWs [[' ']] 0 = Except.error PyError.indexError :=
  c10_ws_indexerror [[' ']] 0 ⟨[' '], by decide⟩

/-- Claim C3 counterexample: the feed list has a valid non-comment line
(http://a) next to the kept line !x, whose extracted url part is blank, and
the '!'-split get_random_feed_url can return that blank string. -/
theorem c3_counterexample :
    getRandomFeedUrlBang [['!', 'x'], "http://a".data] 0 = Except.ok [] := rfl

/-- A kept line cannot have the comment marker as its first character. -/
theorem keepLine_head_ne_hash (c : Char) (t : List Char)
    (h : keepLine (c :: t) = true) : ('#' == c) = false := by
  simp only [keepLine, Bool.and_eq_true, Bool.not_eq_true'] at h
  have h2 := h.2
  simp only [List.isPrefixOf, List.isPrefixOf_nil_left, Bool.and_true] at h2
  exact h2

/-- The '!'-split extraction keeps a usable head character. -/
theorem extractBang_head (c : Char) (t : List Char)
    (hws : c.isWhitespace = false) (hb : c ≠ '!') :
    ∃ w, extractBang (c :: t) = c :: w := by
  unfold extractBang
  rw [List.takeWhile_cons, if_pos (by simp [hb])]
  exact pyStrip_cons_head c _ hws

/-- A kept line with a usable head extracts, in the '!'-split variant, to a
url that is non-blank and does not start with the comment marker. -/
theorem extractBang_ok (l : List Char) (hk : keepLine l = true)
    (hg : goodHead l = true) :
    extractBang l ≠ [] ∧ List.isPrefixOf ['#'] (extractBang l) = false := by
  cases l with
  | nil => simp [goodHead] at hg
  | cons c t =>
    simp only [goodHead, Bool.and_eq_true, Bool.not_eq_true', bne_iff_ne] at hg
    rcases extractBang_head c t hg.1 hg.2 with ⟨w, hw⟩
    have hhash := keepLine_head_ne_hash c t hk
    rw [hw]
    exact ⟨by simp, by simp [List.isPrefixOf, hhash]⟩

/-- A kept line with a usable head extracts, in the whitespace variant, to a
url that is non-blank and does not start with the comment marker. -/
theorem extractWs_ok (l : List Char) (hk : keepLine l = true)
    (hg : goodHead l = true) :
    ∃ u, extractWs l = Except.ok u ∧ u ≠ [] ∧ List.isPrefixOf ['#'] u = false := by
  cases l with
  | nil => simp [goodHead] at hg
  | cons c t =>
    simp only [goodHead, Bool.and_eq_true, Bool.not_eq_true', bne_iff_ne] at hg
    have hws := hg.1
    have hhash := keepLine_head_ne_hash c t hk
    have hex : extractWs (c :: t) =
        Except.ok (pyStrip ((c :: t).takeWhile fun a => !a.isWhitespace)) := by
      unfold extractWs
      rw [List.dropWhile_cons, if_neg (by simp [hws])]
    rw [List.takeWhile_cons, if_pos (by simp [hws])] at hex
    rcases pyStrip_cons_head c (t.takeWhile fun a => !a.isWhitespace) hws with ⟨w, hw⟩
    rw [hw] at hex
    exact ⟨c :: w, hex, by simp, by simp [List.isPrefixOf, hhash]⟩

/-- Every element of the '!'-split valid_feeds list is a usable url when all
kept lines have usable heads. -/
theorem validFeedsBang_elems (lines : List (List Char))
    (hgood : ∀ l ∈ lines, keepLine l = true → goodHead l = true) :
    ∀ u ∈ validFeedsBang lines, u ≠ [] ∧ List.isPrefixOf ['#'] u = false := by
  intro u hu
  rcases List.mem_map.mp hu with ⟨l, hl, rfl⟩
  have hmem := (List.mem_filter.mp hl).1
  have hk := (List.mem_filter.mp hl).2
  exact extractBang_ok l hk (hgood l hmem hk)

/-- The whitespace valid_feeds construction succeeds on usable heads and
yields one usable url per kept line. -/
theorem validFeedsWs_ok (lines : List (List Char))
    (hgood : ∀ l ∈ lines, keepLine l = true → goodHead l = true) :
    ∃ vf, validFeedsWs lines = Except.ok vf ∧
      vf.length = (lines.filter keepLine).length ∧
      ∀ u ∈ vf, u ≠ [] ∧ List.isPrefixOf ['#'] u = false := by
  induction lines with
  | nil => exact ⟨[], rfl, by simp, by simp⟩
  | cons l ls ih =>
    rcases ih (fun x hx => hgood x (List.mem_cons_of_mem l hx)) with ⟨vf, hvf, hlen, helems⟩
    by_cases hk : keepLine l = true
    · rcases extractWs_ok l hk (hgood l (List.mem_cons_self l ls) hk) with ⟨u, hu, hune, huhash⟩
      refine ⟨u :: vf, ?_, ?_, ?_⟩
      · simp [validFeedsWs, hk, hu, hvf, Except.bind]
      · simp [List.filter_cons, hk, hlen]
      · intro x hx
        rcases List.mem_cons.mp hx with rfl | hx2
        · exact ⟨hune, huhash⟩
        · exact helems x hx2
    · refine ⟨vf, ?_, ?_, helems⟩
      · simp [validFeedsWs, hk, hvf]
      · simp [List.filter_cons, hk, hlen]

/-- Claim C3 amended: for every feed list with at least one kept
(non-empty, non-comment) line, where every kept line begins with a character
that is neither whitespace nor the '!' delimiter, get_random_feed_url
returns, in both delimiter variants, a url that is neither blank nor
starting with the comment marker. -/
theorem c3_selector_amended (lines : List (List Char)) (k : Nat)
    (hgood : ∀ l ∈ lines, keepLine l = true → goodHead l = true)
    (hsome : lines.filter keepLine ≠ []) :
    (∃ u, getRandomFeedUrlBang lines k = Except.ok u ∧
      u ≠ [] ∧ List.isPrefixOf ['#'] u = false) ∧
    (∃ u, getRandomFeedUrlWs lines k = Except.ok u ∧
      u ≠ [] ∧ List.isPrefixOf ['#'] u = false) := by
  have hflen : 0 < (lines.filter keepLine).length := List.length_pos.mpr hsome
  constructor
  · have hlen : (validFeedsBang lines).length = (lines.filter keepLine).length := by
      simp [validFeedsBang]
    have hnn : validFeedsBang lines ≠ [] := by
      intro hcontra
      rw [hcontra] at hlen
      simp at hlen
      omega
    have hne : (validFeedsBang lines).isEmpty = false := by
      cases hvb : validFeedsBang lines with
      | nil => exact absurd hvb hnn
      | cons a t => rfl
    have hmem : (validFeedsBang lines).getD (k % (validFeedsBang lines).length) [] ∈
        validFeedsBang lines := by
      apply getD_mem_of_lt
      apply Nat.mod_lt
      omega
    rcases validFeedsBang_elems lines hgood _ hmem with ⟨hune, huhash⟩
    exact ⟨_, by simp [getRandomFeedUrlBang, hne], hune, huhash⟩
  · rcases validFeedsWs_ok lines hgood with ⟨vf, hvf, hlen, helems⟩
    have hnn : vf ≠ [] := by
      intro hcontra
      rw [hcontra] at hlen
      simp at hlen
      omega
    have hne : vf.isEmpty = false := by
      cases hvb : vf with
      | nil => exact absurd hvb hnn
      | cons a t => rfl
    have hmem : vf.getD (k % vf.length) [] ∈ vf := by
      apply getD_mem_of_lt
      apply Nat.mod_lt
      exact List.length_pos.mpr hnn
    rcases helems _ hmem with ⟨hune, huhash⟩
    exact ⟨_, by simp [getRandomFeedUrlWs, hvf, hne, Except.bind], hune, huhash⟩

/-- Witness for the amended C3: a one-line feed list with the url http://a
yields a usable url in both variants. -/
theorem c3_witness :
    (∃ u, getRandomFeedUrlBang ["http://a".data] 0 = Except.ok u ∧
      u ≠ [] ∧ List.isPrefixOf ['#'] u = false) ∧
    (∃ u, getRandomFeedUrlWs ["http://a".data] 0 = Except.ok u ∧
      u ≠ [] ∧ List.isPrefixOf ['#'] u = false) :=
  c3_selector_amended ["http://a".data] 0 (by decide) (by decide)

/-- Claim C7: the content sent to the summarizer is the stripped
concatenation of description, a space and content, cut to its first 500
characters with the ellipsis marker appended exactly when the stripped
concatenation exceeds 500 characters, and sent unmodified otherwise. -/
theorem c7_summarizer_truncation (a : Article) :
    ((combinedContent a).length ≤ 500 →
      summaryUserContent a =
        "Title: ".data ++ a.title ++ '\n' :: ("Content: ".data ++ combinedContent a)) ∧
    (500 < (combinedContent a).length →
      summaryUserContent a =
        "Title: ".data ++ a.title ++
          '\n' :: ("Content: ".data ++ ((combinedContent a).take 500 ++ ['.', '.', '.'])) ∧
      (truncatedContent a).length = 503) := by
  constructor
  · intro hle
    unfold summaryUserContent truncatedContent
    rw [if_neg (by omega), List.append_nil, List.take_of_length_le hle]
  · intro hgt
    constructor
    · unfold summaryUserContent truncatedContent
      rw [if_pos hgt]
    · unfold truncatedContent
      rw [if_pos hgt]
      simp [List.length_take]
      omega

/-- Witness for C7: a short article is sent unmodified with no marker. -/
theorem c7_witness :
    summaryUserContent sampleArticle =
      "Title: ".data ++ sampleArticle.title ++
        '\n' :: ("Content: ".data ++ combinedContent sampleArticle) :=
  (c7_summarizer_truncation sampleArticle).1 (by decide)

/-- A list is a prefix of itself, by the executable test. -/
theorem isPrefixOf_self_list (l : List Char) : l.isPrefixOf l = true := by
  induction l with
  | nil => rfl
  | cons a t ih => simp [List.isPrefixOf, ih]

/-- A list is a prefix of itself followed by anything. -/
theorem isPrefixOf_append_right (n z : List Char) : n.isPrefixOf (n ++ z) = true := by
  induction n with
  | nil => simp [List.isPrefixOf]
  | cons a t ih => simp [List.isPrefixOf, ih]

/-- A prefix of the haystack is a Python substring of it. -/
theorem pyInStr_of_isPrefixOf (n h : List Char) (hp : n.isPrefixOf h = true) :
    pyInStr n h = true := by
  cases h with
  | nil =>
    cases n with
    | nil => rfl
    | cons a t => simp [List.isPrefixOf] at hp
  | cons c rest => simp [pyInStr, hp]

/-- Substring membership survives prepending. -/
theorem pyInStr_append_left (n h pre : List Char) (hin : pyInStr n h = true) :
    pyInStr n (pre ++ h) = true := by
  induction pre with
  | nil => simpa using hin
  | cons a t ih =>
    rw [List.cons_append]
    simp only [pyInStr, Bool.or_eq_true]
    exact Or.inr ih

/-- Every list is a Python substring of anything it ends. -/
theorem pyInStr_append_self (n pre : List Char) : pyInStr n (pre ++ n) = true :=
  pyInStr_append_left n n pre (pyInStr_of_isPrefixOf n n (isPrefixOf_self_list n))

/-- Replacing an occurring pattern plants the replacement in the result. -/
theorem pyInStr_pyReplace (old new : List Char) (hold : old ≠ []) :
    ∀ fuel hay, hay.length ≤ fuel → pyInStr old hay = true →
      pyInStr new (pyReplace old new hay) = true := by
  intro fuel
  induction fuel with
  | zero =>
    intro hay hlen hin
    have hnil : hay = [] := List.length_eq_zero.mp (Nat.le_zero.mp hlen)
    subst hnil
    have : old = [] := by
      cases old with
      | nil => rfl
      | cons a t => simp [pyInStr] at hin
    exact absurd this hold
  | succ m ih =>
    intro hay hlen hin
    cases hay with
    | nil =>
      have : old = [] := by
        cases old with
        | nil => rfl
        | cons a t => simp [pyInStr] at hin
      exact absurd this hold
    | cons c rest =>
      by_cases hpre : old.isPrefixOf (c :: rest) = true ∧ old ≠ []
      · rw [pyReplace, dif_pos hpre]
        exact pyInStr_of_isPrefixOf new _ (isPrefixOf_append_right new _)
      · rw [pyReplace, dif_neg hpre]
        have hnp : old.isPrefixOf (c :: rest) = false := by
          by_cases hx : old.isPrefixOf (c :: rest) = true
          · exact absurd ⟨hx, hold⟩ hpre
          · exact Bool.eq_false_iff.mpr hx
        have hin2 : pyInStr old rest = true := by
          simp only [pyInStr, Bool.or_eq_true] at hin
          rcases hin with h1 | h1
          · rw [hnp] at h1; cases h1
          · exact h1
        have hrec := ih rest (by simpa using Nat.le_of_succ_le_succ (by simpa using hlen)) hin2
        simp only [pyInStr, Bool.or_eq_true]
        exact Or.inr hrec

/-- Claim C8: the url-enforcement of the local variant: the posted text
always contains the literal article link; a text already containing the link
is posted unchanged, otherwise every placeholder occurrence is replaced by
the link, otherwise the link is appended after the right-stripped text with
a separating space. -/
theorem c8_url_enforcement (tweet link : List Char) :
    pyInStr link (ensureUrlInTweet tweet link) = true ∧
    (pyInStr link tweet = true → ensureUrlInTweet tweet link = tweet) ∧
    (pyInStr link tweet = false → pyInStr urlPlaceholder tweet = true →
      ensureUrlInTweet tweet link = pyReplace urlPlaceholder link tweet) ∧
    (pyInStr link tweet = false → pyInStr urlPlaceholder tweet = false →
      ensureUrlInTweet tweet link = pyRstrip tweet ++ ' ' :: link) := by
  refine ⟨?_, ?_, ?_, ?_⟩
  · unfold ensureUrlInTweet
    by_cases h1 : pyInStr link tweet = true
    · rw [if_pos h1]
      exact h1
    · rw [if_neg h1]
      by_cases h2 : pyInStr urlPlaceholder tweet = true
      · rw [if_pos h2]
        exact pyInStr_pyReplace urlPlaceholder link (by decide) tweet.length tweet
          (Nat.le_refl _) h2
      · rw [if_neg h2]
        have := pyInStr_append_self link (pyRstrip tweet ++ [' '])
        simpa [List.append_assoc] using this
  · intro h1
    simp [ensureUrlInTweet, h1]
  · intro h1 h2
    simp [ensureUrlInTweet, h1, h2]
  · intro h1 h2
    simp [ensureUrlInTweet, h1, h2]

/-- Witness for C8: a tweet with the placeholder and without the link ends
up containing the link, through the placeholder replacement branch. -/
theorem c8_witness :
    pyInStr sampleLink (ensureUrlInTweet sampleTweet sampleLink) = true ∧
    ensureUrlInTweet sampleTweet sampleLink =
      pyReplace urlPlaceholder sampleLink sampleTweet :=
  ⟨(c8_url_enforcement sampleTweet sampleLink).1,
    (c8_url_enforcement sampleTweet sampleLink).2.2.1 (by decide) (by decide)⟩

/-- Claim C9: the summarizer raises exactly on a non-200 response status and
returns the trimmed choices text on 200; in the continuous loop an erroring
cycle is caught inside the loop body, leaving the state unchanged so the
loop proceeds to the delay and the next cycle. -/
theorem c9_summarizer_error_handling (status : Nat) (content : List Char)
    (env : CycleEnv) (s : StoreState) :
    ((∃ e, generateSummaryResult status content = Except.error e) ↔ status ≠ 200) ∧
    (status = 200 → generateSummaryResult status content = Except.ok (pyStrip content)) ∧
    (env.genStatus ≠ 200 →
      (∃ e, runCycleDiscord env s = Except.error e) ∧ loopIterDiscord env s = s) := by
  refine ⟨⟨?_, ?_⟩, ?_, ?_⟩
  · rintro ⟨e, he⟩ h200
    rw [h200] at he
    simp [generateSummaryResult] at he
  · intro hne
    exact ⟨PyError.upstreamApiError, by simp [generateSummaryResult, hne]⟩
  · intro h200
    rw [h200]
    simp [generateSummaryResult]
  · intro hst
    have hgen : generateSummaryResult env.genStatus env.genContent =
        Except.error PyError.upstreamApiError := by
      simp [generateSummaryResult, hst]
    have hrun : ∃ e, runCycleDiscord env s = Except.error e := by
      unfold runCycleDiscord
      cases h1 : getRandomFeedUrlWs env.feedLines env.choiceIdx with
      | error e => exact ⟨e, by simp [Except.bind]⟩
      | ok u =>
        cases h2 : getLatestArticle env.entries s.posted with
        | error e => exact ⟨e, by simp [Except.bind, h2]⟩
        | ok a => exact ⟨PyError.upstreamApiError, by simp [Except.bind, h2, hgen]⟩
    rcases hrun with ⟨e, he⟩
    exact ⟨⟨e, he⟩, by simp [loopIterDiscord, he]⟩

/-- Witness for C9: an environment whose generation endpoint answers 500
makes the cycle fail and the guarded loop iteration keep the state. -/
theorem c9_witness :
    (∃ e, runCycleDiscord sampleEnv sampleStore = Except.error e) ∧
    loopIterDiscord sampleEnv sampleStore = sampleStore :=
  (c9_summarizer_error_handling 500 ['x'] sampleEnv sampleStore).2.2 (by decide)
